import Mathlib

set_option autoImplicit false

/-!
Shallow embedding of the data-acquisition core of the torn-abroad-stock-predictor
browser extension, translated from src/src/background/torn-stock-predictor.js with
the legacy variant in src/background.js. JavaScript numbers are modelled as
rationals; NaN and the infinities are tracked explicitly where a claim depends on
them. Time is passed as an explicit parameter (one poll cycle observes a single
frozen clock value) and sleeping is elided, since no claim concerns real time.
-/

/-- Model of a JavaScript (JSON-like) runtime value. -/
inductive JVal where
  | null
  | undefined
  | bool (b : Bool)
  | num (q : ℚ)
  | str (s : String)
  | arr (elems : List JVal)
  | obj (fields : List (String × JVal))

mutual

/-- Decidable equality on JVal (hand-written because deriving does not support
this nested inductive). -/
def jvalDecEq : (a b : JVal) → Decidable (a = b)
  | .null, .null => .isTrue rfl
  | .null, .undefined => .isFalse (fun h => nomatch h)
  | .null, .bool _ => .isFalse (fun h => nomatch h)
  | .null, .num _ => .isFalse (fun h => nomatch h)
  | .null, .str _ => .isFalse (fun h => nomatch h)
  | .null, .arr _ => .isFalse (fun h => nomatch h)
  | .null, .obj _ => .isFalse (fun h => nomatch h)
  | .undefined, .null => .isFalse (fun h => nomatch h)
  | .undefined, .undefined => .isTrue rfl
  | .undefined, .bool _ => .isFalse (fun h => nomatch h)
  | .undefined, .num _ => .isFalse (fun h => nomatch h)
  | .undefined, .str _ => .isFalse (fun h => nomatch h)
  | .undefined, .arr _ => .isFalse (fun h => nomatch h)
  | .undefined, .obj _ => .isFalse (fun h => nomatch h)
  | .bool _, .null => .isFalse (fun h => nomatch h)
  | .bool _, .undefined => .isFalse (fun h => nomatch h)
  | .bool x, .bool y =>
    if h : x = y then .isTrue (by rw [h]) else .isFalse (by intro hh; injection hh; contradiction)
  | .bool _, .num _ => .isFalse (fun h => nomatch h)
  | .bool _, .str _ => .isFalse (fun h => nomatch h)
  | .bool _, .arr _ => .isFalse (fun h => nomatch h)
  | .bool _, .obj _ => .isFalse (fun h => nomatch h)
  | .num _, .null => .isFalse (fun h => nomatch h)
  | .num _, .undefined => .isFalse (fun h => nomatch h)
  | .num _, .bool _ => .isFalse (fun h => nomatch h)
  | .num x, .num y =>
    if h : x = y then .isTrue (by rw [h]) else .isFalse (by intro hh; injection hh; contradiction)
  | .num _, .str _ => .isFalse (fun h => nomatch h)
  | .num _, .arr _ => .isFalse (fun h => nomatch h)
  | .num _, .obj _ => .isFalse (fun h => nomatch h)
  | .str _, .null => .isFalse (fun h => nomatch h)
  | .str _, .undefined => .isFalse (fun h => nomatch h)
  | .str _, .bool _ => .isFalse (fun h => nomatch h)
  | .str _, .num _ => .isFalse (fun h => nomatch h)
  | .str x, .str y =>
    if h : x = y then .isTrue (by rw [h]) else .isFalse (by intro hh; injection hh; contradiction)
  | .str _, .arr _ => .isFalse (fun h => nomatch h)
  | .str _, .obj _ => .isFalse (fun h => nomatch h)
  | .arr _, .null => .isFalse (fun h => nomatch h)
  | .arr _, .undefined => .isFalse (fun h => nomatch h)
  | .arr _, .bool _ => .isFalse (fun h => nomatch h)
  | .arr _, .num _ => .isFalse (fun h => nomatch h)
  | .arr _, .str _ => .isFalse (fun h => nomatch h)
  | .arr xs, .arr ys =>
    match jlistDecEq xs ys with
    | .isTrue h => .isTrue (by rw [h])
    | .isFalse h => .isFalse (by intro hh; injection hh; contradiction)
  | .arr _, .obj _ => .isFalse (fun h => nomatch h)
  | .obj _, .null => .isFalse (fun h => nomatch h)
  | .obj _, .undefined => .isFalse (fun h => nomatch h)
  | .obj _, .bool _ => .isFalse (fun h => nomatch h)
  | .obj _, .num _ => .isFalse (fun h => nomatch h)
  | .obj _, .str _ => .isFalse (fun h => nomatch h)
  | .obj _, .arr _ => .isFalse (fun h => nomatch h)
  | .obj xs, .obj ys =>
    match jfieldsDecEq xs ys with
    | .isTrue h => .isTrue (by rw [h])
    | .isFalse h => .isFalse (by intro hh; injection hh; contradiction)

/-- Decidable equality on lists of JVal. -/
def jlistDecEq : (a b : List JVal) → Decidable (a = b)
  | [], [] => .isTrue rfl
  | [], _ :: _ => .isFalse (fun h => nomatch h)
  | _ :: _, [] => .isFalse (fun h => nomatch h)
  | x :: xs, y :: ys =>
    match jvalDecEq x y with
    | .isFalse h => .isFalse (by intro hh; injection hh; contradiction)
    | .isTrue h1 =>
      match jlistDecEq xs ys with
      | .isFalse h => .isFalse (by intro hh; injection hh; contradiction)
      | .isTrue h2 => .isTrue (by rw [h1, h2])

/-- Decidable equality on JVal object field lists. -/
def jfieldsDecEq : (a b : List (String × JVal)) → Decidable (a = b)
  | [], [] => .isTrue rfl
  | [], _ :: _ => .isFalse (fun h => nomatch h)
  | _ :: _, [] => .isFalse (fun h => nomatch h)
  | (k1, v1) :: xs, (k2, v2) :: ys =>
    if hk : k1 = k2 then
      match jvalDecEq v1 v2 with
      | .isFalse h => .isFalse (by intro hh; injection hh with h1 h2; apply h; rw [Prod.mk.injEq] at h1; exact h1.2)
      | .isTrue hv =>
        match jfieldsDecEq xs ys with
        | .isFalse h => .isFalse (by intro hh; injection hh; contradiction)
        | .isTrue ht => .isTrue (by rw [hk, hv, ht])
    else .isFalse (by intro hh; injection hh with h1 h2; apply hk; rw [Prod.mk.injEq] at h1; exact h1.1)

end

instance : DecidableEq JVal := jvalDecEq

/-- JavaScript truthiness: null, undefined, false, 0, and the empty string are
falsy; every array and object is truthy. (NaN never occurs as a stored JVal in
this model.) -/
def truthy : JVal → Bool
  | .null => false
  | .undefined => false
  | .bool b => b
  | .num q => decide (q ≠ 0)
  | .str s => decide (s ≠ "")
  | .arr _ => true
  | .obj _ => true

/-- Whether the JS expression typeof v === 'object' holds (true for null,
arrays and plain objects). -/
def typeofObject : JVal → Bool
  | .null => true
  | .arr _ => true
  | .obj _ => true
  | _ => false

/-- Whether the JS expression typeof v === 'number' holds. -/
def isNumV : JVal → Bool
  | .num _ => true
  | _ => false

/-- Whether Array.isArray v holds. -/
def isArrV : JVal → Bool
  | .arr _ => true
  | _ => false

/-- Property access v.k, returning undefined for a missing key or a non-object
receiver. (The source only reads properties after its own truthiness guards, so
the null-receiver TypeError case never arises on the paths embedded here.) -/
def jget : JVal → String → JVal
  | .obj fields, k => ((fields.find? (fun p => decide (p.1 = k))).map (fun p => p.2)).getD .undefined
  | _, _ => .undefined

/-- Object.entries, on the values the validator reaches: field order for plain
objects, index-keyed entries for arrays, empty for anything else. -/
def entriesOf : JVal → List (String × JVal)
  | .obj fields => fields
  | .arr xs => xs.enum.map (fun p => (toString p.1, p.2))
  | _ => []

/-- Elements of an array value; empty for anything else (the source applies
this only to values validated as arrays, or defaulted by the pattern x or []). -/
def elemsOf : JVal → List JVal
  | .arr xs => xs
  | _ => []

/-- Characters treated as whitespace by the Number coercion model. -/
def isJsSpace (c : Char) : Bool :=
  decide (c = ' ') || decide (c = '\t') || decide (c = '\n') || decide (c = '\r')

/-- Strip leading and trailing whitespace from a character list. -/
def trimChars (l : List Char) : List Char :=
  ((l.dropWhile isJsSpace).reverse.dropWhile isJsSpace).reverse

/-- Numeric value of a list of decimal digits. -/
def natOfDigits (l : List Char) : ℕ :=
  l.foldl (fun acc c => 10 * acc + (c.toNat - 48)) 0

/-- Model of the host primitive Number(string): a blank string coerces to 0, an
optionally negated run of decimal digits coerces to its value, and every other
string coerces to NaN (returned as none). Exotic numeric syntaxes (hex, floats,
Infinity) are outside the feed data and the claims and are mapped to NaN. -/
def jsParseNumber (s : String) : Option ℚ :=
  let chars := trimChars s.toList
  match chars with
  | [] => some 0
  | '-' :: rest =>
    if rest ≠ [] ∧ rest.all Char.isDigit then some (-(natOfDigits rest : ℚ)) else none
  | _ =>
    if chars.all Char.isDigit then some (natOfDigits chars) else none

/-- Model of the host primitive Number(v); none stands for NaN. Note that
Number(null) is 0 while Number(undefined) is NaN. Arrays and objects (which the
repository never passes to Number) are mapped to NaN. -/
def toNumber : JVal → Option ℚ
  | .null => some 0
  | .undefined => none
  | .bool b => some (if b then 1 else 0)
  | .num q => some q
  | .str s => jsParseNumber s
  | .arr _ => none
  | .obj _ => none

/-- Translation of validator.sanitizeNumber: coerce with Number and fall back to
the default exactly when the coercion is NaN. -/
def sanitizeNumber (value : JVal) (defaultValue : ℚ) : ℚ :=
  match toNumber value with
  | some num => num
  | none => defaultValue

/-- Translation of the COUNTRY_CODES table. -/
def COUNTRY_CODES : List (String × String) :=
  [("mex", "Mexico"), ("cay", "Cayman Islands"), ("can", "Canada"),
   ("haw", "Hawaii"), ("uni", "United Kingdom"), ("arg", "Argentina"),
   ("swi", "Switzerland"), ("jap", "Japan"), ("chi", "China"),
   ("uae", "UAE"), ("sou", "South Africa")]

/-- Country display name as used by the orchestrator: COUNTRY_CODES lookup with
the code itself as fallback. -/
def countryName (c : String) : String :=
  (((COUNTRY_CODES.find? (fun p => decide (p.1 = c)))).map (fun p => p.2)).getD c

/-- Chain a structural check over a list, stopping at the first error, as the
source's forEach-with-throw does. -/
def forEachExc {α : Type} : List α → (α → Except String Unit) → Except String Unit
  | [], _ => .ok ()
  | x :: xs, f =>
    match f x with
    | .ok _ => forEachExc xs f
    | .error e => .error e

/-- Translation of the per-item check inside apiValidator.validateYataResponse:
id and name must be truthy, quantity and cost must not be undefined. -/
def validateYataItem (country : String) (item : JVal) : Except String Unit :=
  if ¬ truthy (jget item "id") ∨ ¬ truthy (jget item "name") ∨
     jget item "quantity" = JVal.undefined ∨ jget item "cost" = JVal.undefined then
    .error ("Invalid item data in country " ++ country)
  else .ok ()

/-- Translation of the per-country checks inside apiValidator.validateYataResponse.
An unrecognized country code only produces a logger.warn in the source, which has
no effect on the result, so it does not appear here. -/
def validateYataCountry (country : String) (countryData : JVal) : Except String Unit :=
  if ¬ (truthy (jget countryData "update") ∧ isNumV (jget countryData "update")) then
    .error ("Missing or invalid update timestamp for country: " ++ country)
  else if ¬ (truthy (jget countryData "stocks") ∧ isArrV (jget countryData "stocks")) then
    .error ("Invalid stock data format for country: " ++ country)
  else forEachExc (elemsOf (jget countryData "stocks")) (validateYataItem country)

/-- Translation of apiValidator.validateYataResponse; the source returns true on
success and throws on the first structural violation, modelled as Except. -/
def validateYataResponse (data : JVal) : Except String Unit :=
  if ¬ (truthy data ∧ typeofObject data) then
    .error "Invalid YATA API response format"
  else if ¬ (truthy (jget data "stocks") ∧ typeofObject (jget data "stocks")) then
    .error "Missing or invalid stocks data in YATA response"
  else if ¬ (truthy (jget data "timestamp") ∧ isNumV (jget data "timestamp")) then
    .error "Missing or invalid timestamp in YATA response"
  else forEachExc (entriesOf (jget data "stocks")) (fun p => validateYataCountry p.1 p.2)

/-- Translation of calculateProfitPerMinute from torn-stock-predictor.js: each
input is sanitized, then profit divided by flight time when positive, else 0. -/
def calculateProfitPerMinute (cost market flightTime : JVal) : ℚ :=
  let c := sanitizeNumber cost 0
  let m := sanitizeNumber market 0
  let f := sanitizeNumber flightTime 0
  let profit := m - c
  if f > 0 then profit / f else 0

namespace LegacyBackground

/-- Translation of calculateProfitPerMinute from the legacy src/background.js:
no sanitization, and the divisor is the round-trip time flightTime * 2. -/
def calculateProfitPerMinute (cost market flightTime : ℚ) : ℚ :=
  let profit := market - cost
  let totalFlightTime := flightTime * 2
  if totalFlightTime > 0 then profit / totalFlightTime else 0

end LegacyBackground

/-- One row of the stock_history object store, exactly the fields written by
saveStockSnapshot (plus the type field written only by the MARKET price rows of
fetchAndLogStock). There is no field for trend or restock analytics. -/
structure Row where
  country : String
  item_id : JVal
  quantity : ℚ
  timestamp : ℚ
  created_at : ℚ
  rowType : Option String
deriving DecidableEq

/-- Composite primary key of stock_history: timestamp, country, item_id. -/
def rowKey (r : Row) : ℚ × String × JVal :=
  (r.timestamp, r.country, r.item_id)

/-- The consecutive percentage changes built by calculateTrend's index loop:
for each adjacent pair, (curr.quantity - prev.quantity) / prev.quantity * 100. -/
def pctChanges : List Row → List ℚ
  | a :: b :: rest => ((b.quantity - a.quantity) / a.quantity * 100) :: pctChanges (b :: rest)
  | _ => []

/-- Translation of stockAnalyzer.calculateTrend. Date.now() is the explicit now
parameter (milliseconds); snapshot timestamps are in seconds, hence the * 1000
in the filter, as in the source. -/
def calculateTrend (now : ℚ) (historicalData : List Row) (timeframeHours : ℚ) : ℚ :=
  if historicalData.length < 2 then 0
  else
    let cutoff := now - timeframeHours * 60 * 60 * 1000
    let relevantData := historicalData.filter (fun d => decide (d.timestamp * 1000 ≥ cutoff))
    if relevantData.length < 2 then 0
    else
      let changes := pctChanges relevantData
      changes.foldl (fun a b => a + b) 0 / (changes.length : ℚ)

/-- A JavaScript arithmetic result that may be NaN or an infinity, used where a
claim depends on IEEE special values. -/
inductive JSNum where
  | nan
  | inf
  | ninf
  | fin (q : ℚ)
deriving DecidableEq

/-- JavaScript division on finite operands: x / 0 is an infinity for nonzero x
and NaN for 0 / 0; otherwise the exact quotient. -/
def jsDiv (a b : ℚ) : JSNum :=
  if b = 0 then (if a = 0 then .nan else if a > 0 then .inf else .ninf)
  else .fin (a / b)

/-- JavaScript comparison x < bound for a possibly non-finite x: any comparison
with NaN is false. -/
def jsLt (x : JSNum) (bound : ℚ) : Bool :=
  match x with
  | .nan => false
  | .inf => false
  | .ninf => true
  | .fin q => decide (q < bound)

/-- Insert a row after all rows of smaller or equal key, the stable insertion
step of the sort model. -/
def insertAfterLe (key : Row → ℚ) (r : Row) : List Row → List Row
  | [] => [r]
  | x :: xs => if key x ≤ key r then x :: insertAfterLe key r xs else r :: x :: xs

/-- Stable ascending sort by a numeric key, modelling Array.prototype.sort with
a numeric comparator. -/
def insertionSortBy (key : Row → ℚ) (l : List Row) : List Row :=
  l.foldl (fun acc r => insertAfterLe key r acc) []

/-- Fallback row for the indexed accesses sorted[0] and list[length - 1]; under
predictRestock's length guard the lists are never empty, so it is never used on
reachable paths. -/
def emptyRow : Row :=
  ⟨"", JVal.null, 0, 0, 0, none⟩

/-- Result record of stockAnalyzer.predictRestock. -/
structure Restock where
  minQuantity : ℚ
  maxQuantity : ℚ
  nearMin : Bool
  avgQuantity : ℚ
deriving DecidableEq

/-- Translation of stockAnalyzer.predictRestock. The nearMin comparison divides
by maxQuantity - minQuantity without a guard; jsDiv and jsLt model the IEEE
behaviour of that expression (0 / 0 is NaN and NaN < 0.2 is false). -/
def predictRestock (historicalData : List Row) : Option Restock :=
  if historicalData.length < 2 then none
  else
    let sorted := insertionSortBy (fun r => r.quantity) historicalData
    let minQuantity := (sorted.headD emptyRow).quantity
    let maxQuantity := (sorted.getLastD emptyRow).quantity
    let latestQuantity := (historicalData.getLastD emptyRow).quantity
    let nearMin := jsLt (jsDiv (latestQuantity - minQuantity) (maxQuantity - minQuantity)) (1/5)
    some ⟨minQuantity, maxQuantity, nearMin,
      (sorted.foldl (fun a r => a + r.quantity) 0) / (sorted.length : ℚ)⟩

/-- Lookup in an insertion-ordered association list, modelling reads of JS
object properties and Map entries keyed by runtime values. -/
def assocGet {α β : Type} [DecidableEq α] (l : List (α × β)) (k : α) : Option β :=
  ((l.find? (fun p => decide (p.1 = k))).map (fun p => p.2))

/-- Write to an insertion-ordered association list: overwrite in place when the
key exists, append otherwise, as JS object and Map assignment does. -/
def assocSet {α β : Type} [DecidableEq α] : List (α × β) → α → β → List (α × β)
  | [], k, v => [(k, v)]
  | (k1, v1) :: rest, k, v =>
    if k1 = k then (k, v) :: rest else (k1, v1) :: assocSet rest k v

/-- Model of IDBObjectStore.put on the stock_history store: replace the row at
the same composite key when present, insert otherwise. -/
def idbPut : List Row → Row → List Row
  | [], row => [row]
  | r :: rest, row =>
    if rowKey r = rowKey row then row :: rest else r :: idbPut rest row

/-- One attempt of saveStockSnapshot: validate the inputs, sanitize quantity and
timestamp, then upsert in the stock_history store: store.get on the composite
key, store.put when a row exists, store.add otherwise. The now parameter stands
for the Date.now() recorded in created_at. -/
def trySaveSnapshot (now : ℚ) (db : List Row) (country : String) (item_id quantity timestamp : JVal) :
    Except String (List Row) :=
  if country = "" ∨ ¬ truthy item_id ∨ quantity = JVal.undefined ∨ ¬ truthy timestamp then
    .error "Invalid snapshot data"
  else
    let data : Row :=
      ⟨country, item_id, sanitizeNumber quantity 0, sanitizeNumber timestamp 0, now, none⟩
    match db.find? (fun r => decide (rowKey r = rowKey data)) with
    | some _ => .ok (idbPut db data)
    | none => .ok (db ++ [data])

/-- The last positional argument of saveStockSnapshot. It is declared as
retryCount, but the orchestrator's first call site passes its analytics object
(trend, restock, countryName) in this position. -/
inductive JSArg where
  | num (n : ℕ)
  | obj (trend : ℚ) (restock : Option Restock) (cName : String)
deriving DecidableEq

/-- Number of retries still allowed by the source's retryCount < MAX_RETRIES
test: 3 - n for a numeric retryCount, and 0 for the analytics object, because
comparing an object with a number yields NaN and NaN < 3 is false. -/
def retriesRemaining : JSArg → ℕ
  | .num n => 3 - n
  | .obj _ _ _ => 0

/-- Retry loop of saveStockSnapshot. The store operations of the model are
deterministic, so each retry repeats the same attempt; the backoff sleeps are
elided. -/
def saveSnapshotGo (now : ℚ) (country : String) (item_id quantity timestamp : JVal) :
    ℕ → List Row → Except String (List Row)
  | remaining, db =>
    match trySaveSnapshot now db country item_id quantity timestamp with
    | .ok db2 => .ok db2
    | .error e =>
      match remaining with
      | 0 => .error e
      | r + 1 => saveSnapshotGo now country item_id quantity timestamp r db

/-- Translation of saveStockSnapshot: validated, sanitized upsert keyed by
(timestamp, country, item_id), retried up to MAX_RETRIES times and then
propagating the error. -/
def saveStockSnapshot (now : ℚ) (db : List Row) (country : String)
    (item_id quantity timestamp : JVal) (retryCount : JSArg) : Except String (List Row) :=
  saveSnapshotGo now country item_id quantity timestamp (retriesRemaining retryCount) db

/-- Translation of getHistoricalData: all rows of the by_item index for this
country and item within the inclusive time bounds, sorted ascending by
timestamp. -/
def getHistoricalData (db : List Row) (country : String) (item_id : JVal)
    (startTime endTime : ℚ) : List Row :=
  insertionSortBy (fun r => r.timestamp)
    (db.filter (fun r =>
      decide (r.country = country ∧ r.item_id = item_id ∧
        startTime ≤ r.timestamp ∧ r.timestamp ≤ endTime)))

/-- Translation of getLatestSnapshot: the row with the greatest timestamp at or
before now for this country and item, none when there is no such row. -/
def getLatestSnapshot (now : ℚ) (db : List Row) (country : String) (item_id : JVal) : Option Row :=
  (db.filter (fun r =>
      decide (r.country = country ∧ r.item_id = item_id ∧
        0 ≤ r.timestamp ∧ r.timestamp ≤ now))).foldl
    (fun acc r =>
      match acc with
      | none => some r
      | some b => if b.timestamp ≤ r.timestamp then some r else some b)
    none

/-- One listing of the Torn item-market response. -/
structure TornListing where
  price : ℚ
deriving DecidableEq

/-- The item record of the Torn item-market response; either field may be
absent in a malformed payload. -/
structure TornItem where
  itemType : Option String
  average_price : Option ℚ
deriving DecidableEq

/-- The itemmarket object of the Torn item-market response. A none listings
field stands for a missing or non-array value, which Array.isArray rejects. -/
structure TornItemMarket where
  item : Option TornItem
  listings : Option (List TornListing)
deriving DecidableEq

/-- A parsed Torn item-market response body: an optional error envelope message
and an optional itemmarket object. -/
structure TornMarketVal where
  errMsg : Option String
  itemmarket : Option TornItemMarket
deriving DecidableEq

/-- Truthiness of an optional string property, as in the check !item.type. -/
def truthyStrOpt : Option String → Bool
  | some s => decide (s ≠ "")
  | none => false

/-- Translation of apiValidator.validateTornMarketResponse: fail on an error
envelope, a missing itemmarket object, a missing item, a falsy item.type, or a
listings value that is not an array. -/
def validateTornMarketResponse (data : TornMarketVal) : Except String Unit :=
  match data.errMsg with
  | some e => .error ("Torn API error: " ++ e)
  | none =>
    match data.itemmarket with
    | none => .error "Missing or invalid itemmarket data"
    | some im =>
      match im.item, im.listings with
      | some it, some _ =>
        if truthyStrOpt it.itemType then .ok ()
        else .error "Invalid market data structure"
      | _, _ => .error "Invalid market data structure"

/-- The expression data.itemmarket?.item?.type || null: a missing or empty type
collapses to null. -/
def tornItemTypeOf (data : TornMarketVal) : Option String :=
  match (data.itemmarket.bind (fun im => im.item)).bind (fun it => it.itemType) with
  | some s => if s = "" then none else some s
  | none => none

/-- The expression data.itemmarket?.item?.average_price || 0. -/
def tornAvgPriceOf (data : TornMarketVal) : ℚ :=
  ((data.itemmarket.bind (fun im => im.item)).bind (fun it => it.average_price)).getD 0

/-- The expression data.itemmarket?.listings || []. -/
def tornListingsOf (data : TornMarketVal) : List TornListing :=
  (data.itemmarket.bind (fun im => im.listings)).getD []

/-- Math.round for the price average: floor of x + 1/2, as JS rounds half-up. -/
def jsRound (x : ℚ) : ℚ :=
  ((⌊x + 1/2⌋ : ℤ) : ℚ)

/-- Outcome of one Torn market HTTP request: a rejected promise, a non-ok HTTP
status, or an OK response with a parsed body. -/
inductive TornOutcome where
  | reject (msg : String)
  | httpError (status : ℕ)
  | okJson (data : TornMarketVal)

/-- The YATA error envelope carried by a non-ok feed response. -/
structure ErrEnv where
  code : ℚ
  errMsg : String
deriving DecidableEq

/-- Outcome of one YATA feed HTTP request: a rejected promise or parse failure,
a non-ok status whose body may carry an error envelope, or an OK parsed body. -/
inductive FeedOutcome where
  | reject (msg : String)
  | httpError (status : ℕ) (body : Option ErrEnv)
  | okJson (data : JVal)

/-- The external world observed during one poll cycle: the frozen clock value
(milliseconds), the feed response, and the market response for each item id.
All awaits in a cycle are sequential, so one outcome per channel suffices. -/
structure Env where
  now : ℚ
  feed : FeedOutcome
  tornFetch : JVal → TornOutcome

/-- Result of fetchMarketPriceForItem; the zero results produced by guards and
the catch handler carry no timestamp field, a fresh fetch carries Date.now(). -/
structure MPResult where
  price : ℚ
  mtype : Option String
  timestamp : Option ℚ
deriving DecidableEq

/-- One entry of the staticItemData metadata map built by loadStaticMetadata:
country, id, name, cost and the hardcoded flight time. -/
structure Meta where
  country : String
  id : JVal
  name : String
  cost : ℚ
  flight_time : ℚ
deriving DecidableEq

/-- One entry of the per-country aggregated result list: the spread metadata
plus quantity, market price, profit per minute, timestamp and item type. -/
structure ResultEntry where
  country : String
  id : JVal
  name : String
  cost : ℚ
  flight_time : ℚ
  quantity : JVal
  market_price : ℚ
  profit_per_minute : ℚ
  timestamp : ℚ
  itemType : Option String
deriving DecidableEq

/-- The module-level mutable state of torn-stock-predictor.js, together with
the stock_history store and the browser.storage.local keys the core writes. -/
structure St where
  apiKey : Option String
  itemTypeCache : List (JVal × Option String)
  manualRefreshMode : Bool
  staticItemData : List ((String × JVal) × Meta)
  marketPriceCache : List (JVal × MPResult)
  dbRows : List Row
  storageStockData : Option (List (String × List ResultEntry))
  storageStockDataVersion : Option ℚ
  storageItemTypeCache : Option (List (JVal × Option String))
  rlLastCall : ℚ
  rlYataLastCall : ℚ

/-- Whether a type value is one of the two tracked categories. -/
def trackedType (t : Option String) : Bool :=
  decide (t = some "Plushie") || decide (t = some "Flower")

/-- The cache-freshness test Date.now() - cached.timestamp < 5 minutes. A cache
entry without a timestamp field compares NaN < duration, which is false. -/
def cacheLive (now : ℚ) (cached : MPResult) : Bool :=
  match cached.timestamp with
  | some t => decide (now - t < 5 * 60 * 1000)
  | none => false

/-- The try block of fetchMarketPriceForItem: rate-limit stamp, market fetch,
validation, write-through of the resolved type to the persistent type cache,
category short-circuit, listing filter within ten percent of the upstream
average, mean of the first five survivors rounded to an integer, and caching of
the result. Every throwing operation is surfaced in the Except component while
the state mutations made before the throw are kept. -/
def fetchTry (env : Env) (itemId : JVal) (s : St) : St × Except String MPResult :=
  let s1 := {s with rlLastCall := env.now}
  match env.tornFetch itemId with
  | .reject msg => (s1, .error msg)
  | .httpError status => (s1, .error ("HTTP error! status: " ++ toString status))
  | .okJson data =>
    match validateTornMarketResponse data with
    | .error e => (s1, .error e)
    | .ok _ =>
      let resolvedType := tornItemTypeOf data
      let newTypeCache := assocSet s1.itemTypeCache itemId resolvedType
      let s2 := {s1 with itemTypeCache := newTypeCache,
                         storageItemTypeCache := some newTypeCache}
      if ¬ trackedType resolvedType then (s2, .ok ⟨0, resolvedType, none⟩)
      else
        let average_price := tornAvgPriceOf data
        let listings := tornListingsOf data
        let filtered := listings.filter
          (fun l => decide (|l.price - average_price| ≤ average_price * (1/10)))
        let top5 := filtered.take 5
        if top5.length = 0 then (s2, .ok ⟨0, resolvedType, none⟩)
        else
          let avg := (top5.foldl (fun sum l => sum + l.price) 0) / (top5.length : ℚ)
          let result : MPResult := ⟨jsRound avg, resolvedType, some env.now⟩
          ({s2 with marketPriceCache := assocSet s2.marketPriceCache itemId result}, .ok result)

/-- The catch boundary of fetchMarketPriceForItem: a successful try returns its
result, any thrown error is logged and converted to price 0, type null. The
Bool records that the network path was entered. -/
def fetchGo (env : Env) (itemId : JVal) (s : St) : MPResult × St × Bool :=
  match fetchTry env itemId s with
  | (s2, .ok r) => (r, s2, true)
  | (s2, .error _) => (⟨0, none, none⟩, s2, true)

/-- The persistent-type-cache guard of fetchMarketPriceForItem: a truthy cached
type outside the two tracked categories short-circuits with price 0. -/
def fetchAfterCacheCheck (env : Env) (itemId : JVal) (s : St) : MPResult × St × Bool :=
  match assocGet s.itemTypeCache itemId with
  | some (some t) =>
    if t ≠ "" ∧ t ≠ "Plushie" ∧ t ≠ "Flower" then (⟨0, some t, none⟩, s, false)
    else fetchGo env itemId s
  | _ => fetchGo env itemId s

/-- Translation of fetchMarketPriceForItem: missing API key guard, live price
cache short-circuit, persistent type cache short-circuit, then the rate-limited
fetch path whose errors are all converted to price 0, type null. -/
def fetchMarketPriceForItem (env : Env) (itemId : JVal) (s : St) : MPResult × St × Bool :=
  if s.apiKey.isNone then (⟨0, none, none⟩, s, false)
  else
    match assocGet s.marketPriceCache itemId with
    | some cached =>
      if cacheLive env.now cached then (cached, s, false)
      else fetchAfterCacheCheck env itemId s
    | none => fetchAfterCacheCheck env itemId s

/-- The timestamp expression yataData.timestamp || Math.floor(Date.now() / 1000).
Validation guarantees a truthy numeric timestamp on the paths that reach this. -/
def feedTimestampOf (now : ℚ) (data : JVal) : ℚ :=
  match jget data "timestamp" with
  | .num q => if q = 0 then ((⌊now / 1000⌋ : ℤ) : ℚ) else q
  | _ => ((⌊now / 1000⌋ : ℤ) : ℚ)

/-- The country filter requestedCountries && !requestedCountries.includes(c). -/
def skipCountry (requestedCountries : Option (List String)) (country : String) : Bool :=
  match requestedCountries with
  | some l => ¬ l.contains country
  | none => false

/-- The first per-item pass of fetchAndLogStock over one country's stocks
array: read the trailing day of history, compute trend and restock, and call
saveStockSnapshot with the analytics object in the last argument position. On
an error the rows already written are kept and the error is reported. -/
def snapItems (env : Env) (ts : ℚ) (country : String) :
    List JVal → List Row → List Row × Option String
  | [], db => (db, none)
  | item :: rest, db =>
    let hist := getHistoricalData db country (jget item "id") (ts - 24 * 60 * 60) ts
    let trend := calculateTrend env.now hist 24
    let restock := predictRestock hist
    match saveStockSnapshot env.now db country (jget item "id") (jget item "quantity")
        (JVal.num ts) (JSArg.obj trend restock (countryName country)) with
    | .ok db2 => snapItems env ts country rest db2
    | .error e => (db, some e)

/-- The first country loop of fetchAndLogStock, honouring the requested-country
filter. -/
def snapCountries (env : Env) (req : Option (List String)) (ts : ℚ) :
    List (String × JVal) → List Row → List Row × Option String
  | [], db => (db, none)
  | (country, countryData) :: rest, db =>
    if skipCountry req country then snapCountries env req ts rest db
    else
      match snapItems env ts country (elemsOf (jget countryData "stocks")) db with
      | (db2, none) => snapCountries env req ts rest db2
      | (db2, some e) => (db2, some e)

/-- The second pass of fetchAndLogStock: build dynamicData keyed by country and
item id, and collect the distinct item ids to price when in manual refresh
mode. The source keys dynamicData by the template string country_id; the model
keys it by the pair, which the string encodes. -/
def buildDynamic (req : Option (List String)) (manual : Bool)
    (entries : List (String × JVal)) : List ((String × JVal) × JVal) × List JVal :=
  entries.foldl
    (fun acc p =>
      if skipCountry req p.1 then acc
      else
        (elemsOf (jget p.2 "stocks")).foldl
          (fun acc2 item =>
            let idv := jget item "id"
            (assocSet acc2.1 (p.1, idv) (jget item "quantity"),
             if manual then
               (if acc2.2.contains idv then acc2.2 else acc2.2 ++ [idv])
             else acc2.2))
          acc)
    ([], [])

/-- The sequential price-fetch loop of fetchAndLogStock in manual refresh mode:
one awaited fetchMarketPriceForItem per collected id, building priceMap. -/
def priceLoop (env : Env) : List JVal → St → List (JVal × MPResult) → St × List (JVal × MPResult)
  | [], s, acc => (s, acc)
  | id :: rest, s, acc =>
    let (r, s2, _) := fetchMarketPriceForItem env id s
    priceLoop env rest s2 (assocSet acc id r)

/-- Append an entry to the per-country list of the aggregated result, creating
the country key on first use as result[meta.country] does. -/
def pushResult (acc : List (String × List ResultEntry)) (country : String) (entry : ResultEntry) :
    List (String × List ResultEntry) :=
  if acc.any (fun p => decide (p.1 = country)) then
    acc.map (fun p => if p.1 = country then (p.1, p.2 ++ [entry]) else p)
  else acc ++ [(country, [entry])]

/-- The market price used for one dynamicData entry, with the state mutation it
performs: in manual mode the freshly fetched price is read from priceMap and
persisted as a MARKET row; otherwise the latest persisted MARKET snapshot is
used, falling back to the in-memory price cache. -/
def resolveMarketPrice (env : Env) (manual : Bool) (ts : ℚ)
    (priceMap : List (JVal × MPResult)) (meta : Meta) (s : St) : St × ℚ :=
  if manual then
    let price := ((assocGet priceMap meta.id).map (fun i => i.price)).getD 0
    let row : Row := ⟨"MARKET", meta.id, price, ts, env.now, some "market_price"⟩
    ({s with dbRows := idbPut s.dbRows row}, price)
  else
    match getLatestSnapshot env.now s.dbRows "MARKET" meta.id with
    | some latest => (s, latest.quantity)
    | none => (s, ((assocGet s.marketPriceCache meta.id).map (fun c => c.price)).getD 0)

/-- The final pass of fetchAndLogStock over dynamicData: resolve metadata,
market price and item type, skip unknown or untracked types, compute profit per
minute, persist the quantity snapshot, and append to the aggregated result. -/
def resultLoop (env : Env) (manual : Bool) (ts : ℚ) (priceMap : List (JVal × MPResult)) :
    List ((String × JVal) × JVal) → St → List (String × List ResultEntry) →
    St × List (String × List ResultEntry) × Option String
  | [], s, acc => (s, acc, none)
  | (key, quantity) :: rest, s, acc =>
    match assocGet s.staticItemData key with
    | none => resultLoop env manual ts priceMap rest s acc
    | some meta =>
      let (s2, market_price) := resolveMarketPrice env manual ts priceMap meta s
      match assocGet s2.itemTypeCache meta.id with
      | none => resultLoop env manual ts priceMap rest s2 acc
      | some item_type =>
        if ¬ (item_type = some "Plushie" ∨ item_type = some "Flower") then
          resultLoop env manual ts priceMap rest s2 acc
        else
          let ppm := calculateProfitPerMinute (JVal.num meta.cost) (JVal.num market_price)
            (JVal.num meta.flight_time)
          match saveStockSnapshot env.now s2.dbRows meta.country meta.id quantity
              (JVal.num ts) (JSArg.num 0) with
          | .error e => (s2, acc, some e)
          | .ok db2 =>
            let entry : ResultEntry :=
              ⟨meta.country, meta.id, meta.name, meta.cost, meta.flight_time,
               quantity, market_price, ppm, ts, item_type⟩
            resultLoop env manual ts priceMap rest {s2 with dbRows := db2}
              (pushResult acc meta.country entry)

/-- The body of fetchAndLogStock after a successfully fetched and validated
feed: snapshot every item with its computed analytics, optionally fetch prices,
build the aggregated result, write it with a version stamp to external storage
in one shot, and clear the manual refresh flag. An error anywhere aborts before
the storage write but keeps the history rows already persisted. -/
def fetchAndLogStockMain (env : Env) (req : Option (List String)) (data : JVal) (s : St) :
    Except String Unit × St :=
  let ts := feedTimestampOf env.now data
  let entries := entriesOf (jget data "stocks")
  match snapCountries env req ts entries s.dbRows with
  | (db1, some e) => (.error e, {s with dbRows := db1})
  | (db1, none) =>
    let s1 := {s with dbRows := db1}
    let (dyn, idsToFetch) := buildDynamic req s1.manualRefreshMode entries
    let (s2, priceMap) := priceLoop env idsToFetch s1 []
    match resultLoop env s2.manualRefreshMode ts priceMap dyn s2 [] with
    | (s3, _, some e) => (.error e, s3)
    | (s3, result, none) =>
      (.ok (), {s3 with storageStockData := some result,
                        storageStockDataVersion := some env.now,
                        manualRefreshMode := false})

/-- Translation of fetchAndLogStock: open the store, wait on the YATA rate
limit, fetch and validate the feed, then run the cycle body. A rejected fetch,
a non-ok HTTP response (with or without a YATA error envelope) and a validation
failure all propagate as errors after the logger call in the catch block. -/
def fetchAndLogStock (env : Env) (req : Option (List String)) (s : St) :
    Except String Unit × St :=
  let s1 := {s with rlYataLastCall := env.now}
  match env.feed with
  | .reject msg => (.error msg, s1)
  | .httpError status body =>
    match body with
    | some errEnv => (.error errEnv.errMsg, s1)
    | none => (.error ("YATA API HTTP error! status: " ++ toString status), s1)
  | .okJson data =>
    match validateYataResponse data with
    | .error e => (.error e, s1)
    | .ok _ => fetchAndLogStockMain env req data s1

/-- Decidable equality for Except values. -/
instance {ε α : Type} [DecidableEq ε] [DecidableEq α] : DecidableEq (Except ε α) := fun a b =>
  match a, b with
  | .ok x, .ok y =>
    if h : x = y then .isTrue (by rw [h]) else .isFalse (by intro hh; injection hh; contradiction)
  | .error x, .error y =>
    if h : x = y then .isTrue (by rw [h]) else .isFalse (by intro hh; injection hh; contradiction)
  | .ok _, .error _ => .isFalse (fun h => nomatch h)
  | .error _, .ok _ => .isFalse (fun h => nomatch h)

/-- Whether an Except value is an error. -/
def isErrB {ε α : Type} : Except ε α → Bool
  | .error _ => true
  | .ok _ => false

/-- Whether the feed step of a cycle fails: a rejected fetch, a non-ok HTTP
response, or a structural validation failure. -/
def feedFails (env : Env) : Bool :=
  match env.feed with
  | .reject _ => true
  | .httpError _ _ => true
  | .okJson d => isErrB (validateYataResponse d)

/-- The composite primary key invariant of the stock_history store: no two rows
share the (timestamp, country, item_id) triple. -/
def nodupKeys (db : List Row) : Prop :=
  db.Pairwise (fun a b => rowKey a ≠ rowKey b)

instance (db : List Row) : Decidable (nodupKeys db) := by
  unfold nodupKeys; infer_instance

/-- Whether a call of fetchMarketPriceForItem reaches the rate-limited network
path: an API key is present, no live price-cache entry short-circuits, and the
persistent type cache does not short-circuit. -/
def reachesFetchPath (env : Env) (itemId : JVal) (s : St) : Bool :=
  s.apiKey.isSome &&
  (match assocGet s.marketPriceCache itemId with
   | some cached => !(cacheLive env.now cached)
   | none => true) &&
  (match assocGet s.itemTypeCache itemId with
   | some (some t) => !(decide (t ≠ "" ∧ t ≠ "Plushie" ∧ t ≠ "Flower"))
   | _ => true)

/-- Consecutive percentage changes written as the claim states them: map over
the adjacent pairs of the windowed list. Definition follows the specification
text, to be compared with the source translation calculateTrend. -/
def specAdjacentChanges (l : List Row) : List ℚ :=
  (l.zip l.tail).map (fun p => (p.2.quantity - p.1.quantity) / p.1.quantity * 100)

/-- Trend as the specification words it: restrict to the trailing window,
return 0 with fewer than 2 snapshots remaining, otherwise the arithmetic mean
of the consecutive percentage changes. Definition follows the specification
text, to be compared with the source translation calculateTrend. -/
def specTrend (now windowHours : ℚ) (history : List Row) : ℚ :=
  let rel := history.filter
    (fun d => decide (d.timestamp * 1000 ≥ now - windowHours * 60 * 60 * 1000))
  if rel.length < 2 then 0
  else (specAdjacentChanges rel).sum / ((rel.length - 1 : ℕ) : ℚ)

/-- Structural well-formedness of one feed item, mirroring exactly the checks
validateYataItem performs. -/
def wellFormedItem (item : JVal) : Bool :=
  truthy (jget item "id") && truthy (jget item "name") &&
  decide (jget item "quantity" ≠ JVal.undefined) && decide (jget item "cost" ≠ JVal.undefined)

/-- Structural well-formedness of one country entry, mirroring exactly the
checks validateYataCountry performs. It does not mention country codes. -/
def wellFormedCountry (countryData : JVal) : Bool :=
  truthy (jget countryData "update") && isNumV (jget countryData "update") &&
  truthy (jget countryData "stocks") && isArrV (jget countryData "stocks") &&
  (elemsOf (jget countryData "stocks")).all wellFormedItem

/-- Structural well-formedness of a feed payload, mirroring exactly the checks
validateYataResponse performs; membership of the country codes in
COUNTRY_CODES plays no part. -/
def wellFormedYata (data : JVal) : Bool :=
  truthy data && typeofObject data &&
  truthy (jget data "stocks") && typeofObject (jget data "stocks") &&
  truthy (jget data "timestamp") && isNumV (jget data "timestamp") &&
  (entriesOf (jget data "stocks")).all (fun p => wellFormedCountry p.2)

/-- A fully valid feed item used by the validator test payloads. -/
def yataItemFull : JVal :=
  .obj [("id", .num 1), ("name", .str "Dahlia"), ("quantity", .num 4), ("cost", .num 260)]

/-- A fully valid country entry used by the validator test payloads. -/
def yataCountryFull : JVal :=
  .obj [("update", .num 1700000000), ("stocks", .arr [yataItemFull])]

/-- Payload without a stocks object. -/
def yataPayloadMissingStocks : JVal :=
  .obj [("timestamp", .num 1700000000)]

/-- Payload without a timestamp. -/
def yataPayloadMissingTimestamp : JVal :=
  .obj [("stocks", .obj [("mex", yataCountryFull)])]

/-- Payload whose country entry lacks its stocks array. -/
def yataPayloadCountryNoStocks : JVal :=
  .obj [("timestamp", .num 1700000000),
        ("stocks", .obj [("mex", .obj [("update", .num 1700000000)])])]

/-- Payload whose item record lacks an id. -/
def yataPayloadItemNoId : JVal :=
  .obj [("timestamp", .num 1700000000),
        ("stocks", .obj [("mex", .obj [("update", .num 1700000000),
          ("stocks", .arr [.obj [("name", .str "Dahlia"), ("quantity", .num 4), ("cost", .num 260)]])])])]

/-- Payload whose item record lacks a name. -/
def yataPayloadItemNoName : JVal :=
  .obj [("timestamp", .num 1700000000),
        ("stocks", .obj [("mex", .obj [("update", .num 1700000000),
          ("stocks", .arr [.obj [("id", .num 1), ("quantity", .num 4), ("cost", .num 260)]])])])]

/-- Payload whose item record lacks a quantity. -/
def yataPayloadItemNoQuantity : JVal :=
  .obj [("timestamp", .num 1700000000),
        ("stocks", .obj [("mex", .obj [("update", .num 1700000000),
          ("stocks", .arr [.obj [("id", .num 1), ("name", .str "Dahlia"), ("cost", .num 260)]])])])]

/-- Payload whose item record lacks a cost. -/
def yataPayloadItemNoCost : JVal :=
  .obj [("timestamp", .num 1700000000),
        ("stocks", .obj [("mex", .obj [("update", .num 1700000000),
          ("stocks", .arr [.obj [("id", .num 1), ("name", .str "Dahlia"), ("quantity", .num 4)]])])])]

/-- A well-formed payload whose only country code, zzz, is not in
COUNTRY_CODES. -/
def yataPayloadUnknownCountry : JVal :=
  .obj [("timestamp", .num 1700000000), ("stocks", .obj [("zzz", yataCountryFull)])]

/-- A row with a given quantity, used by the predictRestock examples. -/
def rowQ (q : ℚ) : Row :=
  ⟨"mex", JVal.num 1, q, 0, 0, none⟩

/-- A cached market price entry fetched at clock value 0, used by the price
cache examples. -/
def mpEntry : MPResult :=
  ⟨5, some "Plushie", some 0⟩

/-- State without an API key but with a live cache entry for item 1. -/
def stNoApiKey : St :=
  ⟨none, [], false, [], [(JVal.num 1, mpEntry)], [], none, none, none, 0, 0⟩

/-- State with an API key and a live cache entry for item 1. -/
def stWithCache : St :=
  ⟨some "key", [], false, [], [(JVal.num 1, mpEntry)], [], none, none, none, 0, 0⟩

/-- State with an API key and no cached data. -/
def stEmpty : St :=
  ⟨some "key", [], false, [], [], [], none, none, none, 0, 0⟩

/-- Environment whose clock reads 1000 and whose every request rejects. -/
def envReject : Env :=
  ⟨1000, .reject "network rejected", fun _ => .reject "network rejected"⟩

theorem pctChanges_eq_spec (l : List Row) : pctChanges l = specAdjacentChanges l := by
  induction l with
  | nil => rfl
  | cons a t ih =>
    cases t with
    | nil => rfl
    | cons b rest =>
      simp only [pctChanges, specAdjacentChanges, List.tail_cons, List.zip_cons_cons,
        List.map_cons] at ih ⊢
      rw [ih]

theorem length_pctChanges (l : List Row) : (pctChanges l).length = l.length - 1 := by
  induction l with
  | nil => rfl
  | cons a t ih =>
    cases t with
    | nil => rfl
    | cons b rest =>
      simp only [pctChanges, List.length_cons] at ih ⊢
      omega

theorem foldl_add_from (l : List ℚ) : ∀ a : ℚ, l.foldl (fun x y => x + y) a = a + l.sum := by
  induction l with
  | nil => intro a; simp
  | cons x t ih => intro a; simp only [List.foldl_cons, List.sum_cons, ih]; ring

/-- Claim C1: calculateProfitPerMinute sanitizes each input and returns
(market - cost) / flightTime when the sanitized flight time is positive and
exactly 0 otherwise, regardless of cost and market sign; the legacy
background.js variant divides by 2 times the flight time instead. -/
theorem claim_C1_profit_per_minute :
    (∀ cost market flightTime : JVal,
      (0 < sanitizeNumber flightTime 0 →
        calculateProfitPerMinute cost market flightTime =
          (sanitizeNumber market 0 - sanitizeNumber cost 0) / sanitizeNumber flightTime 0) ∧
      (sanitizeNumber flightTime 0 ≤ 0 →
        calculateProfitPerMinute cost market flightTime = 0)) ∧
    (∀ cost market flightTime : ℚ,
      (0 < flightTime →
        LegacyBackground.calculateProfitPerMinute cost market flightTime =
          (market - cost) / (2 * flightTime)) ∧
      (flightTime ≤ 0 →
        LegacyBackground.calculateProfitPerMinute cost market flightTime = 0)) := by
  constructor
  · intro cost market flightTime
    constructor
    · intro h
      simp only [calculateProfitPerMinute]
      rw [if_pos h]
    · intro h
      simp only [calculateProfitPerMinute]
      rw [if_neg (not_lt.mpr h)]
  · intro cost market flightTime
    constructor
    · intro h
      simp only [LegacyBackground.calculateProfitPerMinute]
      rw [if_pos (by linarith), mul_comm flightTime 2]
    · intro h
      simp only [LegacyBackground.calculateProfitPerMinute]
      rw [if_neg (by intro hpos; linarith)]

/-- Witness for claim C1 at concrete inputs: cost 100, market 250, flight time
50 in both variants. -/
theorem claim_C1_witness :
    calculateProfitPerMinute (JVal.num 100) (JVal.num 250) (JVal.num 50) =
      (sanitizeNumber (JVal.num 250) 0 - sanitizeNumber (JVal.num 100) 0) /
        sanitizeNumber (JVal.num 50) 0 ∧
    LegacyBackground.calculateProfitPerMinute 100 250 50 = (250 - 100) / (2 * 50) :=
  ⟨(claim_C1_profit_per_minute.1 (JVal.num 100) (JVal.num 250) (JVal.num 50)).1 (by decide),
   (claim_C1_profit_per_minute.2 100 250 50).1 (by norm_num)⟩

/-- Claim C8: calculateTrend coincides with the specification's description:
restrict to the trailing window, return 0 when fewer than 2 snapshots remain,
otherwise average the consecutive percentage changes over adjacent pairs. -/
theorem claim_C8_trend_eq_spec :
    ∀ (now windowHours : ℚ) (history : List Row),
      calculateTrend now history windowHours = specTrend now windowHours history := by
  intro now w h
  simp only [calculateTrend, specTrend]
  by_cases hlen : h.length < 2
  · rw [if_pos hlen]
    have hle := List.length_filter_le
      (fun d => decide (d.timestamp * 1000 ≥ now - w * 60 * 60 * 1000)) h
    rw [if_pos (by omega)]
  · rw [if_neg hlen]
    by_cases hrel : (h.filter
        (fun d => decide (d.timestamp * 1000 ≥ now - w * 60 * 60 * 1000))).length < 2
    · rw [if_pos hrel, if_pos hrel]
    · rw [if_neg hrel, if_neg hrel]
      rw [pctChanges_eq_spec, foldl_add_from, zero_add]
      congr 1
      rw [← pctChanges_eq_spec, length_pctChanges]

/-- Counterexample to claim C9 as stated: at value null and default 7 the
claim predicts the default 7, but Number(null) is 0, not NaN, so
sanitizeNumber returns 0. -/
theorem claim_C9_counterexample :
    sanitizeNumber JVal.null 7 = 0 ∧ (0 : ℚ) ≠ 7 := by
  exact ⟨rfl, by norm_num⟩

/-- Claim C9 as amended: sanitizeNumber returns the default exactly when the
Number coercion is NaN, which covers undefined and non-numeric strings but not
null, since null coerces to 0; numeric strings coerce to their value. -/
theorem claim_C9_sanitize_amended :
    (∀ d : ℚ, sanitizeNumber JVal.undefined d = d) ∧
    (∀ (s : String) (d : ℚ), jsParseNumber s = none → sanitizeNumber (JVal.str s) d = d) ∧
    (∀ d : ℚ, sanitizeNumber JVal.null d = 0) ∧
    sanitizeNumber (JVal.str "1000") 0 = 1000 ∧
    (∀ (v : JVal) (d q : ℚ), toNumber v = some q → sanitizeNumber v d = q) ∧
    (∀ (v : JVal) (d : ℚ), toNumber v = none → sanitizeNumber v d = d) := by
  refine ⟨fun d => rfl, fun s d h => ?_, fun d => rfl, by decide, fun v d q h => ?_, fun v d h => ?_⟩
  · simp [sanitizeNumber, toNumber, h]
  · simp [sanitizeNumber, h]
  · simp [sanitizeNumber, h]

/-- Witness for claim C9 at concrete inputs: the non-numeric string abc falls
back to the default 7, and the numeric string 1000 coerces to 1000. -/
theorem claim_C9_witness :
    sanitizeNumber (JVal.str "abc") 7 = 7 ∧ sanitizeNumber (JVal.str "1000") 0 = 1000 :=
  ⟨claim_C9_sanitize_amended.2.1 "abc" 7 (by decide),
   claim_C9_sanitize_amended.2.2.2.1⟩


theorem saveSnapshotGo_eq_try (now : ℚ) (country : String)
    (item_id quantity timestamp : JVal) (rem : ℕ) (db : List Row) :
    saveSnapshotGo now country item_id quantity timestamp rem db =
      trySaveSnapshot now db country item_id quantity timestamp := by
  induction rem with
  | zero =>
    rw [saveSnapshotGo]
    cases htry : trySaveSnapshot now db country item_id quantity timestamp with
    | ok dbx => rfl
    | error e => rfl
  | succ n ih =>
    rw [saveSnapshotGo]
    cases htry : trySaveSnapshot now db country item_id quantity timestamp with
    | ok dbx => rfl
    | error e => rw [htry] at ih; exact ih

theorem saveStockSnapshot_eq_try (now : ℚ) (db : List Row) (country : String)
    (item_id quantity timestamp : JVal) (arg : JSArg) :
    saveStockSnapshot now db country item_id quantity timestamp arg =
      trySaveSnapshot now db country item_id quantity timestamp :=
  saveSnapshotGo_eq_try now country item_id quantity timestamp (retriesRemaining arg) db

theorem mem_idbPut (db : List Row) (row r : Row) (h : r ∈ idbPut db row) : r ∈ db ∨ r = row := by
  induction db with
  | nil =>
    simp only [idbPut] at h
    exact Or.inr (List.mem_singleton.mp h)
  | cons x t ih =>
    simp only [idbPut] at h
    by_cases hk : rowKey x = rowKey row
    · rw [if_pos hk] at h
      rcases List.mem_cons.mp h with h1 | h1
      · exact Or.inr h1
      · exact Or.inl (List.mem_cons_of_mem _ h1)
    · rw [if_neg hk] at h
      rcases List.mem_cons.mp h with h1 | h1
      · exact Or.inl (h1 ▸ List.mem_cons_self _ _)
      · rcases ih h1 with h2 | h2
        · exact Or.inl (List.mem_cons_of_mem _ h2)
        · exact Or.inr h2

theorem trySaveSnapshot_ok_mem (now : ℚ) (db db2 : List Row) (country : String)
    (item_id quantity timestamp : JVal)
    (h : trySaveSnapshot now db country item_id quantity timestamp = .ok db2) :
    ∀ r ∈ db2, r ∈ db ∨
      r = ⟨country, item_id, sanitizeNumber quantity 0, sanitizeNumber timestamp 0, now, none⟩ := by
  simp only [trySaveSnapshot] at h
  split at h
  · exact absurd h (fun hh => nomatch hh)
  · split at h
    · injection h with h2
      intro r hr
      rw [← h2] at hr
      exact mem_idbPut db _ r hr
    · injection h with h2
      intro r hr
      rw [← h2] at hr
      rcases List.mem_append.mp hr with h1 | h1
      · exact Or.inl h1
      · exact Or.inr (List.mem_singleton.mp h1)

/-- Claim C6 support: the analytics object the orchestrator passes as the last
argument of saveStockSnapshot occupies the retryCount parameter and is
discarded, so the store contents after a save are identical for any two
analytics values, and any row a successful save adds to the store is the plain
record of country, item id, sanitized quantity, sanitized timestamp and
creation time, with no trend or restock field. -/
theorem claim_C6_analytics_discarded :
    (∀ (now : ℚ) (db : List Row) (country : String) (item_id quantity timestamp : JVal)
       (t1 t2 : ℚ) (r1 r2 : Option Restock) (n1 n2 : String),
      saveStockSnapshot now db country item_id quantity timestamp (JSArg.obj t1 r1 n1) =
        saveStockSnapshot now db country item_id quantity timestamp (JSArg.obj t2 r2 n2)) ∧
    (∀ (now : ℚ) (db db2 : List Row) (country : String) (item_id quantity timestamp : JVal)
       (arg : JSArg),
      saveStockSnapshot now db country item_id quantity timestamp arg = .ok db2 →
      ∀ r ∈ db2, r ∈ db ∨
        r = ⟨country, item_id, sanitizeNumber quantity 0, sanitizeNumber timestamp 0, now, none⟩) := by
  constructor
  · intro now db country item_id quantity timestamp t1 t2 r1 r2 n1 n2
    rfl
  · intro now db db2 country item_id quantity timestamp arg hok
    rw [saveStockSnapshot_eq_try] at hok
    exact trySaveSnapshot_ok_mem now db db2 country item_id quantity timestamp hok

theorem mem_insertAfterLe (key : Row → ℚ) (r x : Row) (l : List Row)
    (h : x ∈ insertAfterLe key r l) : x = r ∨ x ∈ l := by
  induction l with
  | nil =>
    simp only [insertAfterLe] at h
    exact Or.inl (List.mem_singleton.mp h)
  | cons y t ih =>
    simp only [insertAfterLe] at h
    by_cases hk : key y ≤ key r
    · rw [if_pos hk] at h
      rcases List.mem_cons.mp h with h1 | h1
      · exact Or.inr (h1 ▸ List.mem_cons_self _ _)
      · rcases ih h1 with h2 | h2
        · exact Or.inl h2
        · exact Or.inr (List.mem_cons_of_mem _ h2)
    · rw [if_neg hk] at h
      rcases List.mem_cons.mp h with h1 | h1
      · exact Or.inl h1
      · exact Or.inr h1

theorem length_insertAfterLe (key : Row → ℚ) (r : Row) (l : List Row) :
    (insertAfterLe key r l).length = l.length + 1 := by
  induction l with
  | nil => rfl
  | cons y t ih =>
    simp only [insertAfterLe]
    by_cases hk : key y ≤ key r
    · rw [if_pos hk]
      simp only [List.length_cons, ih]
    · rw [if_neg hk]
      simp only [List.length_cons]

theorem mem_sortFold (key : Row → ℚ) (x : Row) (l : List Row) :
    ∀ acc : List Row, x ∈ l.foldl (fun a r => insertAfterLe key r a) acc → x ∈ acc ∨ x ∈ l := by
  induction l with
  | nil => intro acc h; exact Or.inl h
  | cons y t ih =>
    intro acc h
    rcases ih (insertAfterLe key y acc) h with h1 | h1
    · rcases mem_insertAfterLe key y x acc h1 with h2 | h2
      · exact Or.inr (h2 ▸ List.mem_cons_self _ _)
      · exact Or.inl h2
    · exact Or.inr (List.mem_cons_of_mem _ h1)

theorem length_sortFold (key : Row → ℚ) (l : List Row) :
    ∀ acc : List Row, (l.foldl (fun a r => insertAfterLe key r a) acc).length =
      acc.length + l.length := by
  induction l with
  | nil => intro acc; rfl
  | cons y t ih =>
    intro acc
    simp only [List.foldl_cons, ih (insertAfterLe key y acc), length_insertAfterLe,
      List.length_cons]
    omega

theorem mem_insertionSortBy (key : Row → ℚ) (x : Row) (l : List Row)
    (h : x ∈ insertionSortBy key l) : x ∈ l := by
  rcases mem_sortFold key x l [] h with h1 | h1
  · exact absurd h1 (List.not_mem_nil x)
  · exact h1

theorem length_insertionSortBy (key : Row → ℚ) (l : List Row) :
    (insertionSortBy key l).length = l.length := by
  have := length_sortFold key l []
  simpa [insertionSortBy] using this

theorem headD_mem_row (l : List Row) (d : Row) (h : l ≠ []) : l.headD d ∈ l := by
  cases l with
  | nil => exact absurd rfl h
  | cons x t => exact List.mem_cons_self x t

theorem getLastD_mem_row (l : List Row) (d : Row) (h : l ≠ []) : l.getLastD d ∈ l := by
  induction l generalizing d with
  | nil => exact absurd rfl h
  | cons x t ih =>
    rw [List.getLastD_cons]
    cases t with
    | nil => exact List.mem_cons_self x []
    | cons y u => exact List.mem_cons_of_mem x (ih x (by simp))

theorem foldl_add_quantity_const (c : ℚ) (l : List Row) (hall : ∀ r ∈ l, r.quantity = c) :
    ∀ a : ℚ, l.foldl (fun x r => x + r.quantity) a = a + l.length * c := by
  induction l with
  | nil => intro a; simp
  | cons x t ih =>
    intro a
    simp only [List.foldl_cons, List.length_cons]
    rw [hall x (List.mem_cons_self x t), ih (fun r hr => hall r (List.mem_cons_of_mem x hr))]
    push_cast
    ring

/-- Counterexample to claim C10 as stated: for the two-snapshot history with
equal quantities 5, the unguarded division is 0 / 0 but the nearMin field the
code returns is the boolean false, not a value that is neither true nor
false, because the JavaScript comparison NaN less-than 0.2 evaluates to
false. -/
theorem claim_C10_counterexample :
    predictRestock [rowQ 5, rowQ 5] = some ⟨5, 5, false, 5⟩ ∧
    (predictRestock [rowQ 5, rowQ 5]).map Restock.nearMin = some false ∧
    jsDiv (5 - 5) (5 - 5) = JSNum.nan := by
  refine ⟨?_, ?_, ?_⟩
  · norm_num [predictRestock, insertionSortBy, insertAfterLe, rowQ, emptyRow, jsDiv, jsLt]
  · norm_num [predictRestock, insertionSortBy, insertAfterLe, rowQ, emptyRow, jsDiv, jsLt]
  · norm_num [jsDiv]

/-- Claim C10 as amended: for every history of at least 2 snapshots whose
quantities are all equal, predictRestock's nearMin division is the unguarded
0 / 0, which is NaN, but the comparison NaN less-than 0.2 is false, so the
returned record is min = max = avg = the common quantity with nearMin false. -/
theorem claim_C10_amended :
    ∀ (h : List Row) (c : ℚ),
      2 ≤ h.length → (∀ r ∈ h, r.quantity = c) →
      predictRestock h = some ⟨c, c, false, c⟩ ∧
      jsDiv (c - c) (c - c) = JSNum.nan := by
  intro h c hlen hall
  have hne : h ≠ [] := by
    intro hnil
    rw [hnil] at hlen
    simp at hlen
  have hsortlen : (insertionSortBy (fun r => r.quantity) h).length = h.length :=
    length_insertionSortBy _ h
  have hsortne : insertionSortBy (fun r => r.quantity) h ≠ [] := by
    intro hnil
    rw [hnil] at hsortlen
    simp at hsortlen
    omega
  have hsortall : ∀ r ∈ insertionSortBy (fun r => r.quantity) h, r.quantity = c :=
    fun r hr => hall r (mem_insertionSortBy _ r h hr)
  have hmin : ((insertionSortBy (fun r => r.quantity) h).headD emptyRow).quantity = c :=
    hsortall _ (headD_mem_row _ emptyRow hsortne)
  have hmax : ((insertionSortBy (fun r => r.quantity) h).getLastD emptyRow).quantity = c :=
    hsortall _ (getLastD_mem_row _ emptyRow hsortne)
  have hlast : (h.getLastD emptyRow).quantity = c :=
    hall _ (getLastD_mem_row _ emptyRow hne)
  constructor
  · simp only [predictRestock]
    rw [if_neg (by omega)]
    rw [hmin, hmax, hlast]
    have hdiv : jsLt (jsDiv (c - c) (c - c)) (1/5) = false := by
      rw [sub_self]
      simp [jsDiv, jsLt]
    rw [hdiv]
    have havg : ((insertionSortBy (fun r => r.quantity) h).foldl
        (fun a r => a + r.quantity) 0) /
          ((insertionSortBy (fun r => r.quantity) h).length : ℚ) = c := by
      rw [foldl_add_quantity_const c _ hsortall 0, zero_add, hsortlen]
      have hlen0 : (h.length : ℚ) ≠ 0 := Nat.cast_ne_zero.mpr (by omega)
      rw [mul_comm, mul_div_assoc, div_self hlen0, mul_one]
    rw [havg]
  · rw [sub_self]
    simp [jsDiv]

/-- Witness for claim C10 at the concrete all-equal history of two snapshots
with quantity 5. -/
theorem claim_C10_witness :
    predictRestock [rowQ 5, rowQ 5] = some ⟨(5 : ℚ), 5, false, 5⟩ ∧
    jsDiv ((5 : ℚ) - 5) (5 - 5) = JSNum.nan :=
  claim_C10_amended [rowQ 5, rowQ 5] 5 (by decide) (by decide)

theorem validateYataItem_ok (country : String) (item : JVal)
    (h : wellFormedItem item = true) : validateYataItem country item = .ok () := by
  simp only [wellFormedItem, Bool.and_eq_true, decide_eq_true_eq] at h
  obtain ⟨⟨⟨h1, h2⟩, h3⟩, h4⟩ := h
  simp only [validateYataItem]
  rw [if_neg (by simp [h1, h2, h3, h4])]

theorem forEachExc_ok {α : Type} (l : List α) (f : α → Except String Unit) (g : α → Bool)
    (hall : l.all g = true) (himp : ∀ x, g x = true → f x = .ok ()) :
    forEachExc l f = .ok () := by
  induction l with
  | nil => rfl
  | cons x t ih =>
    simp only [List.all_cons, Bool.and_eq_true] at hall
    simp only [forEachExc, himp x hall.1]
    exact ih hall.2

theorem validateYataCountry_ok (country : String) (countryData : JVal)
    (h : wellFormedCountry countryData = true) :
    validateYataCountry country countryData = .ok () := by
  simp only [wellFormedCountry, Bool.and_eq_true] at h
  obtain ⟨⟨⟨⟨h1, h2⟩, h3⟩, h4⟩, h5⟩ := h
  simp only [validateYataCountry]
  rw [if_neg (by simp [h1, h2]), if_neg (by simp [h3, h4])]
  exact forEachExc_ok _ _ wellFormedItem h5 (fun x hx => validateYataItem_ok country x hx)

/-- Claim C7: validateYataResponse accepts every structurally well-formed
payload regardless of its country codes (the code only warns on an unknown
code), and throws for a payload missing stocks, missing timestamp, a country
entry without its stocks array, or an item record missing id, name, quantity
or cost; the final conjuncts exhibit a well-formed payload whose only country
code zzz is outside COUNTRY_CODES and is still accepted. -/
theorem claim_C7_validate_yata :
    (∀ d : JVal, wellFormedYata d = true → validateYataResponse d = .ok ()) ∧
    validateYataResponse yataPayloadMissingStocks =
      .error "Missing or invalid stocks data in YATA response" ∧
    validateYataResponse yataPayloadMissingTimestamp =
      .error "Missing or invalid timestamp in YATA response" ∧
    validateYataResponse yataPayloadCountryNoStocks =
      .error "Invalid stock data format for country: mex" ∧
    validateYataResponse yataPayloadItemNoId = .error "Invalid item data in country mex" ∧
    validateYataResponse yataPayloadItemNoName = .error "Invalid item data in country mex" ∧
    validateYataResponse yataPayloadItemNoQuantity = .error "Invalid item data in country mex" ∧
    validateYataResponse yataPayloadItemNoCost = .error "Invalid item data in country mex" ∧
    wellFormedYata yataPayloadUnknownCountry = true ∧
    (COUNTRY_CODES.find? (fun p => decide (p.1 = "zzz"))).isNone = true ∧
    validateYataResponse yataPayloadUnknownCountry = .ok () := by
  refine ⟨?_, by decide, by decide, by decide, by decide, by decide, by decide, by decide,
    by decide, by decide, by decide⟩
  intro d h
  simp only [wellFormedYata, Bool.and_eq_true] at h
  obtain ⟨⟨⟨⟨⟨⟨h1, h2⟩, h3⟩, h4⟩, h5⟩, h6⟩, h7⟩ := h
  simp only [validateYataResponse]
  rw [if_neg (by simp [h1, h2]), if_neg (by simp [h3, h4]), if_neg (by simp [h5, h6])]
  exact forEachExc_ok _ _ (fun p => wellFormedCountry p.2) h7
    (fun p hp => validateYataCountry_ok p.1 p.2 hp)

/-- Witness for claim C7 applying the universal part to the concrete payload
with the unknown country code zzz. -/
theorem claim_C7_witness :
    validateYataResponse yataPayloadUnknownCountry = .ok () :=
  claim_C7_validate_yata.1 yataPayloadUnknownCountry (by decide)

/-- Claim C4: whenever the rate-limited fetch path of fetchMarketPriceForItem
is reached and any step of it throws (network rejection, HTTP error, or
validation failure), the error is caught and converted to price 0 with a null
type; the function returns normally, keeping the state mutations made before
the throw. -/
theorem claim_C4_fetch_errors_absorbed :
    ∀ (env : Env) (itemId : JVal) (s s2 : St) (e : String),
      reachesFetchPath env itemId s = true →
      fetchTry env itemId s = (s2, .error e) →
      fetchMarketPriceForItem env itemId s = (⟨0, none, none⟩, s2, true) := by
  intro env itemId s s2 e hreach htry
  simp only [reachesFetchPath, Bool.and_eq_true] at hreach
  obtain ⟨⟨hkey, hcache⟩, htype⟩ := hreach
  have hgo : fetchGo env itemId s = (⟨0, none, none⟩, s2, true) := by
    simp only [fetchGo, htry]
  have hafter : fetchAfterCacheCheck env itemId s = (⟨0, none, none⟩, s2, true) := by
    simp only [fetchAfterCacheCheck]
    cases hty : assocGet s.itemTypeCache itemId with
    | none => exact hgo
    | some t =>
      cases t with
      | none => exact hgo
      | some str =>
        rw [hty] at htype
        simp only [Bool.not_eq_true'] at htype
        show (if str ≠ "" ∧ str ≠ "Plushie" ∧ str ≠ "Flower" then
            ((⟨0, some str, none⟩ : MPResult), s, false)
          else fetchGo env itemId s) = (⟨0, none, none⟩, s2, true)
        rw [if_neg (of_decide_eq_false htype)]
        exact hgo
  have hnone : s.apiKey.isNone = false := by
    cases hk2 : s.apiKey with
    | none => rw [hk2] at hkey; simp at hkey
    | some k => rfl
  simp only [fetchMarketPriceForItem]
  rw [if_neg (by simp [hnone])]
  cases hc : assocGet s.marketPriceCache itemId with
  | none => exact hafter
  | some cached =>
    rw [hc] at hcache
    simp only [Bool.not_eq_true'] at hcache
    show (if cacheLive env.now cached = true then (cached, s, false)
      else fetchAfterCacheCheck env itemId s) = (⟨0, none, none⟩, s2, true)
    rw [if_neg (by simp [hcache])]
    exact hafter

/-- Witness for claim C4: a rejected request for item 1 against the empty
cached state yields the zero result while the rate limiter stamp advanced. -/
theorem claim_C4_witness :
    fetchMarketPriceForItem envReject (JVal.num 1) stEmpty =
      (⟨0, none, none⟩, {stEmpty with rlLastCall := 1000}, true) :=
  claim_C4_fetch_errors_absorbed envReject (JVal.num 1) stEmpty
    {stEmpty with rlLastCall := 1000} "network rejected" (by decide) (by rfl)

theorem assocGet_assocSet_self {α β : Type} [DecidableEq α] (l : List (α × β)) (k : α) (v : β) :
    assocGet (assocSet l k v) k = some v := by
  induction l with
  | nil => simp [assocSet, assocGet, List.find?]
  | cons p t ih =>
    rcases p with ⟨k1, v1⟩
    by_cases hk : k1 = k
    · subst hk
      simp [assocSet, assocGet, List.find?]
    · simp [assocSet, hk, assocGet, List.find?] at ih ⊢
      exact ih

theorem fetchTry_ok_shape (env : Env) (itemId : JVal) (s s2 : St) (r : MPResult)
    (h : fetchTry env itemId s = (s2, .ok r)) :
    r.timestamp = none ∨
    (r.timestamp = some env.now ∧ assocGet s2.marketPriceCache itemId = some r) := by
  simp only [fetchTry] at h
  split at h
  · simp only [Prod.mk.injEq] at h
    exact absurd h.2 (fun hh => nomatch hh)
  · simp only [Prod.mk.injEq] at h
    exact absurd h.2 (fun hh => nomatch hh)
  · split at h
    · simp only [Prod.mk.injEq] at h
      exact absurd h.2 (fun hh => nomatch hh)
    · split at h
      · simp only [Prod.mk.injEq] at h
        injection h.2 with h2
        rw [← h2]
        exact Or.inl rfl
      · split at h
        · simp only [Prod.mk.injEq] at h
          injection h.2 with h2
          rw [← h2]
          exact Or.inl rfl
        · simp only [Prod.mk.injEq] at h
          injection h.2 with h2
          rw [← h2, ← h.1]
          exact Or.inr ⟨rfl, assocGet_assocSet_self _ _ _⟩

theorem fetchGo_result (env : Env) (itemId : JVal) (s : St) :
    (∃ s2, fetchGo env itemId s = (⟨0, none, none⟩, s2, true)) ∨
    (∃ s2 r, fetchTry env itemId s = (s2, .ok r) ∧ fetchGo env itemId s = (r, s2, true)) := by
  simp only [fetchGo]
  rcases hft : fetchTry env itemId s with ⟨s2x, resx⟩
  cases resx with
  | ok r => exact Or.inr ⟨s2x, r, rfl, rfl⟩
  | error e => exact Or.inl ⟨s2x, rfl⟩

theorem fetchAfterCacheCheck_result (env : Env) (itemId : JVal) (s : St) :
    (∃ str, fetchAfterCacheCheck env itemId s = (⟨0, some str, none⟩, s, false)) ∨
    (∃ s2, fetchAfterCacheCheck env itemId s = (⟨0, none, none⟩, s2, true)) ∨
    ∃ s2 r, fetchTry env itemId s = (s2, .ok r) ∧
      fetchAfterCacheCheck env itemId s = (r, s2, true) := by
  have hred : fetchAfterCacheCheck env itemId s = fetchGo env itemId s ∨
      ∃ str, fetchAfterCacheCheck env itemId s = (⟨0, some str, none⟩, s, false) := by
    simp only [fetchAfterCacheCheck]
    cases hty : assocGet s.itemTypeCache itemId with
    | none => exact Or.inl rfl
    | some t =>
      cases t with
      | none => exact Or.inl rfl
      | some str =>
        by_cases hcond : str ≠ "" ∧ str ≠ "Plushie" ∧ str ≠ "Flower"
        · exact Or.inr ⟨str, if_pos hcond⟩
        · exact Or.inl (if_neg hcond)
  rcases hred with hred | ⟨str, hred⟩
  · rw [hred]
    rcases fetchGo_result env itemId s with ⟨s2, h⟩ | ⟨s2, r, h1, h2⟩
    · exact Or.inr (Or.inl ⟨s2, h⟩)
    · exact Or.inr (Or.inr ⟨s2, r, h1, h2⟩)
  · rw [hred]
    exact Or.inl ⟨str, rfl⟩

theorem fetchMarketPriceForItem_cases (env : Env) (itemId : JVal) (s : St) :
    (s.apiKey.isNone = true ∧
      fetchMarketPriceForItem env itemId s = (⟨0, none, none⟩, s, false)) ∨
    (∃ cached, assocGet s.marketPriceCache itemId = some cached ∧
      cacheLive env.now cached = true ∧
      fetchMarketPriceForItem env itemId s = (cached, s, false)) ∨
    (s.apiKey.isNone = false ∧
      fetchMarketPriceForItem env itemId s = fetchAfterCacheCheck env itemId s) := by
  simp only [fetchMarketPriceForItem]
  by_cases hk : s.apiKey.isNone = true
  · rw [if_pos hk]
    exact Or.inl ⟨hk, rfl⟩
  · rw [if_neg hk]
    have hk2 : s.apiKey.isNone = false := by
      cases h2 : s.apiKey.isNone with
      | true => exact absurd h2 hk
      | false => rfl
    cases hc : assocGet s.marketPriceCache itemId with
    | none => exact Or.inr (Or.inr ⟨hk2, rfl⟩)
    | some cached =>
      by_cases hlive : cacheLive env.now cached = true
      · exact Or.inr (Or.inl ⟨cached, rfl, hlive, if_pos hlive⟩)
      · exact Or.inr (Or.inr ⟨hk2, if_neg hlive⟩)

/-- Counterexample to claim C3 as stated: with a live cache entry for item 1
but no API key configured, the call returns the zero result produced by the
missing-key guard, which precedes the cache check, not the cached entry. -/
theorem claim_C3_counterexample :
    mpEntry.timestamp = some 0 ∧
    envReject.now - 0 < 5 * 60 * 1000 ∧
    assocGet stNoApiKey.marketPriceCache (JVal.num 1) = some mpEntry ∧
    fetchMarketPriceForItem envReject (JVal.num 1) stNoApiKey =
      ((⟨0, none, none⟩ : MPResult), stNoApiKey, false) ∧
    ((⟨0, none, none⟩ : MPResult) ≠ mpEntry) := by
  refine ⟨rfl, by norm_num [envReject], by decide, rfl, by decide⟩

/-- Claim C3 as amended: provided an API key is configured, a cache entry
fetched less than 5 minutes before the current time is returned verbatim with
no network fetch; regardless of the key, an entry aged 5 minutes or more is
never the returned value, and any returned value carrying a fetch timestamp is
the entry held in the cache afterwards (a fresh lookup replaces the entry). -/
theorem claim_C3_price_cache_amended :
    (∀ (env : Env) (itemId : JVal) (s : St) (k : String) (cached : MPResult) (t : ℚ),
      s.apiKey = some k →
      assocGet s.marketPriceCache itemId = some cached →
      cached.timestamp = some t →
      env.now - t < 5 * 60 * 1000 →
      fetchMarketPriceForItem env itemId s = (cached, s, false)) ∧
    (∀ (env : Env) (itemId : JVal) (s : St) (cached : MPResult) (t : ℚ),
      assocGet s.marketPriceCache itemId = some cached →
      cached.timestamp = some t →
      ¬ (env.now - t < 5 * 60 * 1000) →
      (fetchMarketPriceForItem env itemId s).1 ≠ cached) ∧
    (∀ (env : Env) (itemId : JVal) (s : St) (r : MPResult) (s2 : St) (b : Bool) (t : ℚ),
      fetchMarketPriceForItem env itemId s = (r, s2, b) →
      r.timestamp = some t →
      assocGet s2.marketPriceCache itemId = some r) := by
  refine ⟨?_, ?_, ?_⟩
  · intro env itemId s k cached t hkey hc ht hfresh
    have hlive : cacheLive env.now cached = true := by
      simp only [cacheLive, ht, decide_eq_true_eq]
      exact hfresh
    simp only [fetchMarketPriceForItem, hkey, Option.isNone_some]
    rw [if_neg (by simp)]
    rw [hc]
    show (if cacheLive env.now cached = true then (cached, s, false)
      else fetchAfterCacheCheck env itemId s) = (cached, s, false)
    rw [if_pos hlive]
  · intro env itemId s cached t hc ht hexp heq
    have hlive : cacheLive env.now cached = false := by
      simp only [cacheLive, ht, decide_eq_false_iff_not]
      exact hexp
    rcases fetchMarketPriceForItem_cases env itemId s with ⟨hk, hres⟩ |
      ⟨c2, hc2, hlive2, hres⟩ | ⟨hk, hres⟩
    · rw [hres] at heq
      rw [← heq] at ht
      exact absurd ht (by simp)
    · rw [hc] at hc2
      injection hc2 with hc3
      rw [← hc3] at hlive2
      rw [hlive2] at hlive
      exact absurd hlive (by simp)
    · rw [hres] at heq
      rcases fetchAfterCacheCheck_result env itemId s with ⟨str, h1⟩ | ⟨s2, h1⟩ |
        ⟨s2, r, h1, h2⟩
      · rw [h1] at heq
        rw [← heq] at ht
        exact absurd ht (by simp)
      · rw [h1] at heq
        rw [← heq] at ht
        exact absurd ht (by simp)
      · rw [h2] at heq
        have heq2 : r = cached := heq
        rw [heq2] at h1
        rcases fetchTry_ok_shape env itemId s s2 cached h1 with hts | ⟨hts, _⟩
        · rw [ht] at hts
          exact absurd hts (by simp)
        · rw [ht] at hts
          injection hts with hts2
          apply hexp
          rw [hts2, sub_self]
          norm_num
  · intro env itemId s r s2 b t hres ht
    rcases fetchMarketPriceForItem_cases env itemId s with ⟨hk, hres2⟩ |
      ⟨cached, hc, hlive, hres2⟩ | ⟨hk, hres2⟩
    · rw [hres2] at hres
      injection hres with h1 h2
      rw [← h1] at ht
      exact absurd ht (by simp)
    · rw [hres2] at hres
      injection hres with h1 h2
      injection h2 with h2 h3
      rw [← h1, ← h2]
      exact hc
    · rw [hres2] at hres
      rcases fetchAfterCacheCheck_result env itemId s with ⟨str, h1⟩ | ⟨s2x, h1⟩ |
        ⟨s2x, rx, h1, h2⟩
      · rw [hres] at h1
        injection h1 with h3 h4
        rw [h3] at ht
        exact absurd ht (by simp)
      · rw [hres] at h1
        injection h1 with h3 h4
        rw [h3] at ht
        exact absurd ht (by simp)
      · rw [hres] at h2
        injection h2 with h3 h4
        injection h4 with h4 h5
        rw [← h3, ← h4] at h1
        rcases fetchTry_ok_shape env itemId s s2 r h1 with hts | ⟨_, hcache⟩
        · rw [ht] at hts
          exact absurd hts (by simp)
        · exact hcache

/-- Witness for claim C3 applying the live-cache part at a state holding an
API key and a cache entry fetched at clock 0, read at clock 1000. -/
theorem claim_C3_witness :
    fetchMarketPriceForItem envReject (JVal.num 1) stWithCache =
      (mpEntry, stWithCache, false) :=
  claim_C3_price_cache_amended.1 envReject (JVal.num 1) stWithCache "key" mpEntry 0
    rfl (by decide) rfl (by norm_num [envReject])

/-- Claim C2: in every cycle whose feed step fails, by network rejection, by a
non-ok HTTP response, or by feed validation, fetchAndLogStock writes neither
stockData nor stockDataVersion to external storage and propagates the error to
its caller. -/
theorem claim_C2_feed_failure_no_write :
    ∀ (env : Env) (req : Option (List String)) (s : St),
      feedFails env = true →
      isErrB (fetchAndLogStock env req s).1 = true ∧
      (fetchAndLogStock env req s).2.storageStockData = s.storageStockData ∧
      (fetchAndLogStock env req s).2.storageStockDataVersion = s.storageStockDataVersion := by
  intro env req s h
  simp only [feedFails] at h
  cases hf : env.feed with
  | reject m =>
    simp only [fetchAndLogStock, hf]
    exact ⟨rfl, trivial, trivial⟩
  | httpError st body =>
    cases body with
    | none =>
      simp only [fetchAndLogStock, hf]
      exact ⟨rfl, trivial, trivial⟩
    | some errEnv =>
      simp only [fetchAndLogStock, hf]
      exact ⟨rfl, trivial, trivial⟩
  | okJson d =>
    rw [hf] at h
    have h2 : isErrB (validateYataResponse d) = true := h
    simp only [fetchAndLogStock, hf]
    cases hv : validateYataResponse d with
    | error e =>
      simp only [hv]
      exact ⟨rfl, trivial, trivial⟩
    | ok u =>
      rw [hv] at h2
      exact absurd h2 (by simp [isErrB])

/-- Witness for claim C2: a rejected feed fetch against the empty state leaves
storage untouched and surfaces the error. -/
theorem claim_C2_witness :
    feedFails envReject = true ∧
    isErrB (fetchAndLogStock envReject none stEmpty).1 = true ∧
    (fetchAndLogStock envReject none stEmpty).2.storageStockData = stEmpty.storageStockData ∧
    (fetchAndLogStock envReject none stEmpty).2.storageStockDataVersion =
      stEmpty.storageStockDataVersion :=
  ⟨rfl, claim_C2_feed_failure_no_write envReject none stEmpty rfl⟩

theorem filter_idbPut_of_mem (db : List Row) (data : Row) (hnd : nodupKeys db)
    (hmem : ∃ r ∈ db, rowKey r = rowKey data) :
    (idbPut db data).filter (fun r => decide (rowKey r = rowKey data)) = [data] := by
  induction db with
  | nil =>
    rcases hmem with ⟨r, hr, _⟩
    exact absurd hr (List.not_mem_nil r)
  | cons x t ih =>
    rw [nodupKeys, List.pairwise_cons] at hnd
    simp only [idbPut]
    by_cases hk : rowKey x = rowKey data
    · rw [if_pos hk]
      rw [List.filter_cons_of_pos (by simp)]
      have ht : t.filter (fun r => decide (rowKey r = rowKey data)) = [] := by
        rw [List.filter_eq_nil_iff]
        intro b hb
        simp only [decide_eq_true_eq]
        intro hbk
        exact (hnd.1 b hb) (hk.trans hbk.symm)
      rw [ht]
    · rw [if_neg hk]
      rw [List.filter_cons_of_neg (by simp [hk])]
      apply ih hnd.2
      rcases hmem with ⟨r, hr, hrk⟩
      rcases List.mem_cons.mp hr with h1 | h1
      · exact absurd (h1 ▸ hrk) hk
      · exact ⟨r, h1, hrk⟩

theorem filter_append_single (db : List Row) (data : Row)
    (hnone : db.find? (fun r => decide (rowKey r = rowKey data)) = none) :
    (db ++ [data]).filter (fun r => decide (rowKey r = rowKey data)) = [data] := by
  rw [List.filter_append]
  have h1 : db.filter (fun r => decide (rowKey r = rowKey data)) = [] := by
    rw [List.filter_eq_nil_iff]
    exact List.find?_eq_none.mp hnone
  rw [h1, List.nil_append, List.filter_cons_of_pos (by simp), List.filter_nil]

theorem nodup_idbPut (db : List Row) (data : Row) (hnd : nodupKeys db) :
    nodupKeys (idbPut db data) := by
  induction db with
  | nil =>
    simp only [idbPut]
    exact List.pairwise_singleton _ _
  | cons x t ih =>
    rw [nodupKeys, List.pairwise_cons] at hnd
    simp only [idbPut]
    by_cases hk : rowKey x = rowKey data
    · rw [if_pos hk]
      rw [nodupKeys, List.pairwise_cons]
      exact ⟨fun b hb => by rw [← hk]; exact hnd.1 b hb, hnd.2⟩
    · rw [if_neg hk]
      rw [nodupKeys, List.pairwise_cons]
      constructor
      · intro b hb
        rcases mem_idbPut t data b hb with h1 | h1
        · exact hnd.1 b h1
        · rw [h1]; exact hk
      · exact ih hnd.2

theorem nodup_append_single (db : List Row) (data : Row)
    (hnone : ∀ r ∈ db, rowKey r ≠ rowKey data) (hnd : nodupKeys db) :
    nodupKeys (db ++ [data]) := by
  rw [nodupKeys, List.pairwise_append]
  refine ⟨hnd, List.pairwise_singleton _ _, fun a ha b hb => ?_⟩
  rw [List.mem_singleton.mp hb]
  exact hnone a ha

theorem trySaveSnapshot_valid_spec (now : ℚ) (db : List Row) (country : String)
    (item_id quantity timestamp : JVal) (hc : country ≠ "") (hi : truthy item_id = true)
    (hq : quantity ≠ JVal.undefined) (ht : truthy timestamp = true) (hnd : nodupKeys db) :
    ∃ db1, trySaveSnapshot now db country item_id quantity timestamp = .ok db1 ∧
      db1.filter (fun r =>
        decide (rowKey r = (sanitizeNumber timestamp 0, country, item_id))) =
        [⟨country, item_id, sanitizeNumber quantity 0, sanitizeNumber timestamp 0, now, none⟩] ∧
      nodupKeys db1 := by
  have hvalid : ¬ (country = "" ∨ ¬ truthy item_id = true ∨ quantity = JVal.undefined ∨
      ¬ truthy timestamp = true) := by
    simp [hc, hi, hq, ht]
  simp only [trySaveSnapshot]
  rw [if_neg hvalid]
  set data : Row :=
    ⟨country, item_id, sanitizeNumber quantity 0, sanitizeNumber timestamp 0, now, none⟩ with hdata
  have hkeq : (sanitizeNumber timestamp 0, country, item_id) = rowKey data := rfl
  cases hfind : db.find? (fun r => decide (rowKey r = rowKey data)) with
  | some r0 =>
    refine ⟨idbPut db data, rfl, ?_, nodup_idbPut db data hnd⟩
    rw [hkeq]
    apply filter_idbPut_of_mem db data hnd
    refine ⟨r0, List.mem_of_find?_eq_some hfind, ?_⟩
    have := List.find?_some hfind
    simpa using this
  | none =>
    refine ⟨db ++ [data], rfl, ?_, ?_⟩
    · rw [hkeq]
      exact filter_append_single db data hfind
    · apply nodup_append_single db data ?_ hnd
      intro r hr
      have := List.find?_eq_none.mp hfind r hr
      simpa using this

/-- Claim C5: two saveStockSnapshot calls with the same timestamp, country and
item id but different quantities leave exactly one row for that key, bearing
the sanitized quantity of the second call, and saveStockSnapshot preserves the
at-most-one-row-per-key invariant of the store. -/
theorem claim_C5_upsert :
    (∀ (now1 now2 : ℚ) (db : List Row) (country : String)
       (item_id q1 q2 timestamp : JVal) (arg1 arg2 : JSArg),
      country ≠ "" → truthy item_id = true → q1 ≠ JVal.undefined → q2 ≠ JVal.undefined →
      truthy timestamp = true → nodupKeys db →
      ∃ db1 db2,
        saveStockSnapshot now1 db country item_id q1 timestamp arg1 = .ok db1 ∧
        saveStockSnapshot now2 db1 country item_id q2 timestamp arg2 = .ok db2 ∧
        db2.filter (fun r =>
          decide (rowKey r = (sanitizeNumber timestamp 0, country, item_id))) =
          [⟨country, item_id, sanitizeNumber q2 0, sanitizeNumber timestamp 0, now2, none⟩] ∧
        nodupKeys db2) ∧
    (∀ (now : ℚ) (db db2 : List Row) (country : String)
       (item_id quantity timestamp : JVal) (arg : JSArg),
      nodupKeys db →
      saveStockSnapshot now db country item_id quantity timestamp arg = .ok db2 →
      nodupKeys db2) := by
  have hpres : ∀ (now : ℚ) (db db2 : List Row) (country : String)
      (item_id quantity timestamp : JVal) (arg : JSArg),
      nodupKeys db →
      saveStockSnapshot now db country item_id quantity timestamp arg = .ok db2 →
      nodupKeys db2 := by
    intro now db db2 country item_id quantity timestamp arg hnd hok
    rw [saveStockSnapshot_eq_try] at hok
    simp only [trySaveSnapshot] at hok
    split at hok
    · exact absurd hok (fun hh => nomatch hh)
    · rename_i hvalid
      cases hfind : db.find? (fun r =>
          decide (rowKey r = rowKey ⟨country, item_id, sanitizeNumber quantity 0,
            sanitizeNumber timestamp 0, now, none⟩)) with
      | some r0 =>
        rw [hfind] at hok
        injection hok with h2
        rw [← h2]
        exact nodup_idbPut db _ hnd
      | none =>
        rw [hfind] at hok
        injection hok with h2
        rw [← h2]
        apply nodup_append_single db _ ?_ hnd
        intro r hr
        have := List.find?_eq_none.mp hfind r hr
        simpa using this
  constructor
  · intro now1 now2 db country item_id q1 q2 timestamp arg1 arg2 hc hi hq1 hq2 ht hnd
    obtain ⟨db1, h1, hfilter1, hnd1⟩ :=
      trySaveSnapshot_valid_spec now1 db country item_id q1 timestamp hc hi hq1 ht hnd
    obtain ⟨db2, h2, hfilter2, hnd2⟩ :=
      trySaveSnapshot_valid_spec now2 db1 country item_id q2 timestamp hc hi hq2 ht hnd1
    refine ⟨db1, db2, ?_, ?_, hfilter2, hnd2⟩
    · rw [saveStockSnapshot_eq_try]
      exact h1
    · rw [saveStockSnapshot_eq_try]
      exact h2
  · exact hpres

/-- Witness for claim C5: two saves of quantities 5 then 7 for the key
(100, mex, 1) on the empty store. -/
theorem claim_C5_witness :
    ∃ db1 db2,
      saveStockSnapshot 1 [] "mex" (JVal.num 1) (JVal.num 5) (JVal.num 100)
        (JSArg.num 0) = .ok db1 ∧
      saveStockSnapshot 2 db1 "mex" (JVal.num 1) (JVal.num 7) (JVal.num 100)
        (JSArg.num 0) = .ok db2 ∧
      db2.filter (fun r =>
        decide (rowKey r = (sanitizeNumber (JVal.num 100) 0, "mex", JVal.num 1))) =
        [⟨"mex", JVal.num 1, sanitizeNumber (JVal.num 7) 0,
          sanitizeNumber (JVal.num 100) 0, 2, none⟩] ∧
      nodupKeys db2 :=
  claim_C5_upsert.1 1 2 [] "mex" (JVal.num 1) (JVal.num 5) (JVal.num 7) (JVal.num 100)
    (JSArg.num 0) (JSArg.num 0) (by decide) (by decide) (by decide) (by decide)
    (by decide) (by decide)

/-- Witness for claim C6: saving with the analytics object in the retryCount
position adds the plain row; the row stored for quantity 5 at timestamp 100
carries no analytics fields. -/
theorem claim_C6_witness :
    (⟨"mex", JVal.num 1, 5, 100, 1, none⟩ : Row) ∈ ([] : List Row) ∨
    (⟨"mex", JVal.num 1, 5, 100, 1, none⟩ : Row) =
      ⟨"mex", JVal.num 1, sanitizeNumber (JVal.num 5) 0,
        sanitizeNumber (JVal.num 100) 0, 1, none⟩ :=
  claim_C6_analytics_discarded.2 1 [] [⟨"mex", JVal.num 1, 5, 100, 1, none⟩] "mex"
    (JVal.num 1) (JVal.num 5) (JVal.num 100) (JSArg.obj 10 none "Mexico") (by decide)
    ⟨"mex", JVal.num 1, 5, 100, 1, none⟩ (by decide)
